import Mathlib

/-!
Verification of the pcbzip repository (`src/pcbzip/pcbzip.py`) against its
natural-language specification.  The Python code is shallowly embedded:
strings are Lean `String`s and the Python `str` primitives used by the code
(`endswith`, `startswith`, `split`, `lower`, `strip`, `rstrip`) are modelled
as computable functions on the character list `String.data`, so that every
definition evaluates by `decide` on concrete inputs.
-/

/-- Python `s.endswith(suf)`: `suf` is a suffix of `s` (character-wise). -/
def pyEndsWith (s suf : String) : Bool := suf.data.isSuffixOf s.data

/-- Python `s.startswith(pre)`: the first `pre.length` characters of `s` equal `pre`. -/
def pyStartsWith (s pre : String) : Bool := s.data.take pre.data.length == pre.data

/-- Auxiliary splitter accumulating the current field in reverse. -/
def splitOnCharAux (c : Char) : List Char → List Char → List (List Char)
  | [], acc => [acc.reverse]
  | x :: xs, acc =>
    if x = c then acc.reverse :: splitOnCharAux c xs [] else splitOnCharAux c xs (x :: acc)

/-- Python `s.split(c)` for a one-character separator `c`. -/
def pySplitChar (c : Char) (s : String) : List String :=
  (splitOnCharAux c s.data []).map String.mk

/-- Python `s.lower()` (ASCII case folding, as used on the BOM fields). -/
def pyToLower (s : String) : String := String.mk (s.data.map Char.toLower)

/-- Python `s.strip(chars)`: drop characters of `chars` from both ends of `s`. -/
def pyStrip (chars : List Char) (s : String) : String :=
  String.mk
    (((s.data.dropWhile (fun c => chars.contains c)).reverse.dropWhile
        (fun c => chars.contains c)).reverse)

/-- Python `s.rstrip(chars)`: drop characters of `chars` from the right end of `s`. -/
def pyRStrip (chars : List Char) (s : String) : String :=
  String.mk ((s.data.reverse.dropWhile (fun c => chars.contains c)).reverse)

/-! ## Vendor file-set model (`PCBFileProcessor` class constants) -/

/-- Required filename suffixes for SeedStudio, in canonical stacking order. -/
def SEED_STUDIO_REQUIRED_FILES : List String :=
  ["F.SilkS.gto", "F.Cu.gtl", "F.Paste.gtp", "F.Mask.gts", "B.Paste.gbp", "B.Cu.gbl",
   "B.SilkS.gbo", "B.Mask.gbs", "Dwgs.User.gbr", "Edge.Cuts.gm1", ".drl"]

/-- Required filename suffixes for PCBWay, in canonical stacking order. -/
def PCBWAY_REQUIRED_FILES : List String :=
  ["F.Cu.gbr", "F.SilkS.gbr", "F.Mask.gbr", "B.Cu.gbr", "B.SilkS.gbr", "Edge.Cuts.gbr",
   "B.Mask.gbr", ".drl"]

/-- Required filename suffixes for JLCPCB (Kicad V5 exports). -/
def JLCPCB_REQUIRED_FILES : List String :=
  ["F_Cu.gbr", "F_SilkS.gbr", "F_Mask.gbr", "B_Cu.gbr", "B_SilkS.gbr", "Edge_Cuts.gbr",
   "B_Mask.gbr", ".drl"]

/-- Required filename suffixes for JLCPCB (Kicad V6 exports). -/
def JLCPCB_REQUIRED_FILES_V6 : List String :=
  ["F_Cu.gtl", "B_Cu.gbl", "F_Paste.gtp", "B_Paste.gbp", "F_Silkscreen.gto",
   "B_Silkscreen.gbo", "F_Mask.gts", "B_Mask.gbs", "Edge_Cuts.gm1", ".drl"]

/-! ## Stack sorter (`PCBFileProcessor.getSortedFileList`) -/

/-- Failure of the stack sorter.  In the source, when no input file matches any
profile's first suffix the local `mfgFileList` is never assigned and the call
fails; the specification names this failure `UnrecognizedFileSet`. -/
inductive SortFailure where
  | UnrecognizedFileSet
deriving DecidableEq, Repr

/-- Profile inference: scan the input paths in order and return the required-file
list of the first profile whose first suffix matches, checked in the fixed
priority order PCBWay, SeedStudio, JLCPCB-V5, JLCPCB-V6 (the chain of `if
pcbFile.endswith(...): break` statements in `getSortedFileList`). -/
def inferMfgFileList : List String → Option (List String)
  | [] => none
  | pcbFile :: rest =>
    if pyEndsWith pcbFile (PCBWAY_REQUIRED_FILES.headD "") then some PCBWAY_REQUIRED_FILES
    else if pyEndsWith pcbFile (SEED_STUDIO_REQUIRED_FILES.headD "") then
      some SEED_STUDIO_REQUIRED_FILES
    else if pyEndsWith pcbFile (JLCPCB_REQUIRED_FILES.headD "") then some JLCPCB_REQUIRED_FILES
    else if pyEndsWith pcbFile (JLCPCB_REQUIRED_FILES_V6.headD "") then
      some JLCPCB_REQUIRED_FILES_V6
    else inferMfgFileList rest

/-- Embedding of `PCBFileProcessor.getSortedFileList`: infer the profile, then for
each suffix of the profile (in order) append every input path ending with it. -/
def getSortedFileList (fileList : List String) : Except SortFailure (List String) :=
  match inferMfgFileList fileList with
  | none => Except.error SortFailure.UnrecognizedFileSet
  | some mfgFileList =>
    Except.ok (mfgFileList.foldl
      (fun sorted mfgFileEnd => sorted ++ fileList.filter (fun p => pyEndsWith p mfgFileEnd)) [])

/-- Predicate: the path matches the first required suffix of some profile, in
which case `getSortedFileList` stops its inference scan at this path. -/
def matchesAnyFirstSuffix (pcbFile : String) : Bool :=
  pyEndsWith pcbFile (PCBWAY_REQUIRED_FILES.headD "") ||
  pyEndsWith pcbFile (SEED_STUDIO_REQUIRED_FILES.headD "") ||
  pyEndsWith pcbFile (JLCPCB_REQUIRED_FILES.headD "") ||
  pyEndsWith pcbFile (JLCPCB_REQUIRED_FILES_V6.headD "")

/-! ## Archive builder (`PCBFileProcessor.zipFiles`) -/

/-- The fixed gerber-like extension allowlist used by `zipFiles` (the chain of
`f.endswith(...)` tests), independent of the chosen vendor. -/
def GERBER_FILE_EXTENSIONS : List String :=
  [".gbr", ".drl", ".gtp", ".gbp", ".gbl", ".gtl", ".gto", ".gbo", ".gbs", ".gts", ".gm1"]

/-- A directory entry passes the allowlist filter when it ends with one of the
gerber-like extensions. -/
def isGerberFile (f : String) : Bool :=
  GERBER_FILE_EXTENSIONS.any (fun ext => pyEndsWith f ext)

/-- Embedding of the inner Python loop `for reqF in requiredFiles: if
currentF.endswith(reqF): requiredFiles.remove(reqF)`, including CPython's
iterator semantics: the iterator keeps a position `k`; removing the element at
the position shifts the remainder left so the next element is skipped.
`List.erase` removes the first occurrence, as `list.remove` does. -/
def removeMatchedScan (currentF : String) (requiredFiles : List String) (k : Nat) :
    List String :=
  if h : k < requiredFiles.length then
    let reqF := requiredFiles.get ⟨k, h⟩
    if pyEndsWith currentF reqF then
      removeMatchedScan currentF (requiredFiles.erase reqF) (k + 1)
    else
      removeMatchedScan currentF requiredFiles (k + 1)
  else requiredFiles
termination_by requiredFiles.length - k
decreasing_by
  · have hm : (requiredFiles.erase (requiredFiles.get ⟨k, h⟩)).length =
        requiredFiles.length - 1 :=
      List.length_erase_of_mem (List.get_mem requiredFiles k h)
    omega
  · omega

/-- The outer Python loop `for currentF in gerberFileList: ...`: scan every
filtered file, removing the required suffixes it satisfies. -/
def removeSatisfiedSuffixes (gerberFileList requiredFiles : List String) : List String :=
  gerberFileList.foldl (fun req currentF => removeMatchedScan currentF req 0) requiredFiles

/-- Failure of the archive builder: the `MakeError` raised by `zipFiles` when
required suffixes are missing.  The full expected list is reported through the
info display and the missing list through the exception message; the error
value carries both, as the specification describes. -/
inductive BuildError where
  | MissingRequiredFiles (expected : List String) (missing : List String)
deriving DecidableEq, Repr

/-- Result of a `zipFiles` run: an exception, the silent fall-through returning
nothing (empty project name or version), or the path of the written archive. -/
inductive BuildOutcome where
  | failed (e : BuildError)
  | noArchive
  | archived (opFile : String)
deriving DecidableEq, Repr

/-- Filesystem effects performed by `zipFiles`, in order: `_makeOutputFolder`
ensures the output folder exists (creating it when absent), and
`zipfile.ZipFile(opFile, "w")` plus the `zf.write` loop writes the archive with
the given entry names. -/
inductive FsEffect where
  | ensureDir (dirPath : String)
  | writeArchive (opFile : String) (entries : List String)
deriving DecidableEq, Repr

/-- A `zipFiles` run: the ordered filesystem effects and the returned outcome. -/
structure BuildRun where
  effects : List FsEffect
  outcome : BuildOutcome
deriving DecidableEq, Repr

/-- The output folder computed by `_makeOutputFolder`. -/
def outputFolderName (projectName projectVersion : String) : String :=
  "./" ++ projectName ++ "_" ++ projectVersion ++ "_pcb_files"

/-- Embedding of `PCBFileProcessor.zipFiles`.  The interactive vendor selection
and the two `input()` calls are parameters; `cwdFiles` is the list of regular
file names of the working directory.  `_makeOutputFolder` runs before the
name/version check; the archive entries are the bare file names of every
filtered file. -/
def zipFiles (requiredFiles : List String) (mfg projectName projectVersion : String)
    (cwdFiles : List String) : BuildRun :=
  let expectedFiles := requiredFiles
  let pcbFileFolder := outputFolderName projectName projectVersion
  if 0 < projectName.length ∧ 0 < projectVersion.length then
    let opFile := pcbFileFolder ++ "/" ++
      (projectName ++ "_v" ++ projectVersion ++ "_" ++ mfg ++ ".zip")
    let gerberFileList := cwdFiles.filter isGerberFile
    let missing := removeSatisfiedSuffixes gerberFileList requiredFiles
    if 0 < missing.length then
      { effects := [FsEffect.ensureDir pcbFileFolder],
        outcome := BuildOutcome.failed (BuildError.MissingRequiredFiles expectedFiles missing) }
    else
      { effects := [FsEffect.ensureDir pcbFileFolder,
                    FsEffect.writeArchive opFile gerberFileList],
        outcome := BuildOutcome.archived opFile }
  else
    { effects := [FsEffect.ensureDir pcbFileFolder], outcome := BuildOutcome.noArchive }

/-- Suffix independence of a required-file list: no entry is a suffix of
another (and there are no duplicate entries).  All four vendor lists satisfy
it; it guarantees that one directory entry can satisfy at most one required
suffix, which is what makes the mutate-while-iterating removal loop behave. -/
def suffixIndep : List String → Bool
  | [] => true
  | a :: t =>
    t.all (fun b => !(a.data.isSuffixOf b.data) && !(b.data.isSuffixOf a.data)) && suffixIndep t

/-! ## BOM reconciliation (`_getExistingBOMLine`, `_mergeBOMFiles`) -/

/-- Comma-split fields of a BOM line, Python `line.split(",")`. -/
def bomFields (line : String) : List String := pySplitChar ',' line

/-- The matching rule of `_getExistingBOMLine`: the first three comma fields
(comment, designator, footprint) are equal case-insensitively.  Python indexes
the fields directly; a field absent from a malformed line is read as the empty
string here, and the claims are stated for lines with at least three fields,
where the two readings agree. -/
def bomLineMatch (kicadBOMFileLine existingBOMLine : String) : Bool :=
  let ke := bomFields kicadBOMFileLine
  let ee := bomFields existingBOMLine
  (pyToLower (ke.getD 0 "") == pyToLower (ee.getD 0 "")) &&
  (pyToLower (ke.getD 1 "") == pyToLower (ee.getD 1 "")) &&
  (pyToLower (ke.getD 2 "") == pyToLower (ee.getD 2 ""))

/-- Embedding of `_getExistingBOMLine`: scan every existing line, overwriting
the running result on each match, so the last matching line wins. -/
def getExistingBOMLine (kicadBOMFileLine : String) (existingBOMLines : List String) :
    Option String :=
  existingBOMLines.foldl
    (fun matched existingBOMLine =>
      if bomLineMatch kicadBOMFileLine existingBOMLine then some existingBOMLine else matched)
    none

/-- Embedding of the merge loop of `_mergeBOMFiles`: for each fresh Kicad line
append the matched existing line when there is one, else the fresh line. -/
def mergeBOMLines (kicadBOMFileLines bomOutputFileLines : List String) : List String :=
  kicadBOMFileLines.foldl
    (fun outputFileLines kicadBOMFileLine =>
      let newLine := match getExistingBOMLine kicadBOMFileLine bomOutputFileLines with
        | none => kicadBOMFileLine
        | some existing => existing
      outputFileLines ++ [newLine])
    []

/-! ## Placement file rewrite (`_processPlcaementFile`) -/

/-- The expected Kicad placement export header. -/
def PLACEMENT_SOURCE_HEADER : String := "Ref,Val,Package,PosX,PosY,Rot,Side"

/-- The JLCPCB placement header written in its place. -/
def PLACEMENT_TARGET_HEADER : String := "Designator,Val,Package,Mid X,Mid Y,Rotation,Layer"

/-- Result of the placement rewrite: the new lines, or the `HeaderNotFound`
exception raised when no line matched. -/
inductive PlacementResult where
  | ok (newLines : List String)
  | headerNotFound
deriving DecidableEq, Repr

/-- Embedding of the rewrite loop of `_processPlcaementFile`: every line that
starts with the source header is replaced by the target header and the
`updatedHeader` flag is set; all other lines pass through; when the flag was
never set the method raises, which the specification names `HeaderNotFound`. -/
def processPlacementLines (lines : List String) : PlacementResult :=
  let scan := lines.foldl
    (fun (acc : List String × Bool) line =>
      if pyStartsWith line PLACEMENT_SOURCE_HEADER then
        (acc.1 ++ [PLACEMENT_TARGET_HEADER], true)
      else (acc.1 ++ [line], acc.2))
    ([], false)
  if scan.2 then PlacementResult.ok scan.1 else PlacementResult.headerNotFound

/-- Statement of claim C7, modelled from the specification's words rather than
the source: the first line exactly equal to the source header is replaced,
every other line passes through unchanged, and without an exact match the
rewrite fails.  It is compared against `processPlacementLines`, the embedding
of the code, which it does not agree with. -/
def rewritePlacementHeaderClaim (lines : List String) : PlacementResult :=
  match lines.findIdx? (fun line => line == PLACEMENT_SOURCE_HEADER) with
  | none => PlacementResult.headerNotFound
  | some i => PlacementResult.ok (lines.set i PLACEMENT_TARGET_HEADER)

/-! ## Interactive BOM annotation (`_updateJLCPCBPart`, `_processBOMFile`) -/

/-- The five one-letter strings `_processBOMFile` interprets as cursor
movement or abort, in the order `_updateJLCPCBPart` tests them. -/
def BOM_EDIT_COMMANDS : List String := ["n", "b", "l", "f", "a"]

/-- Result of one `_updateJLCPCBPart` call: a cursor/abort command, the
rewritten BOM line, or the exception raised on a malformed line. -/
inductive EditResult where
  | command (cmd : String)
  | newLine (line : String)
  | invalidLine
deriving DecidableEq, Repr

/-- The quoted fields of a BOM line as `_updateJLCPCBPart` computes them:
split on the quote character and keep the elements that are non-empty and not
the bare comma separator. -/
def bomQuotedFields (line : String) : List String :=
  (pySplitChar '"' line).filter (fun elem => !(elem == "") && !(elem == ","))

/-- The quoted four-field BOM line format written back by the editor. -/
def mkBomLine (comment designator footPrint partNumber : String) : String :=
  "\"" ++ comment ++ "\",\"" ++ designator ++ "\",\"" ++ footPrint ++ "\",\"" ++
    partNumber ++ "\""

/-- Embedding of `_updateJLCPCBPart` with the user's entry as a parameter: a
three-field line gains an empty part number; a four-field line is either a
command (when the stripped entry is one of the five command strings) or the
rewritten line carrying the stripped entry as part number; any other field
count raises. -/
def updateJLCPCBPart (line enteredText : String) : EditResult :=
  let fieldList0 := bomQuotedFields line
  let fieldList := if fieldList0.length = 3 then fieldList0 ++ [""] else fieldList0
  if fieldList.length = 4 then
    let comment := pyStrip ['"'] (fieldList.getD 0 "")
    let designator := pyStrip ['"'] (fieldList.getD 1 "")
    let footPrint := pyStrip ['"'] (fieldList.getD 2 "")
    let jlcPcbPartNumber := pyStrip ['\r', '\n', '"'] enteredText
    if jlcPcbPartNumber ∈ BOM_EDIT_COMMANDS then EditResult.command jlcPcbPartNumber
    else EditResult.newLine (mkBomLine comment designator footPrint jlcPcbPartNumber)
  else EditResult.invalidLine

/-- Python `line.startswith("Comment")`: the editing loop leaves header lines
untouched and moves past them. -/
def isBomHeaderLine (line : String) : Bool := pyStartsWith line "Comment"

/-- The index of the next editable (non-header) line at or after `lineIndex`,
or `none` when the scan reaches the end of the file (session completed).  This
folds the header-skipping iterations of the `_processBOMFile` loop, which
consume no user input, into one step. -/
def nextEditIdx (bomLines : List String) (lineIndex : Nat) : Option Nat :=
  if h : lineIndex < bomLines.length then
    if isBomHeaderLine (pyRStrip ['\r', '\n'] (bomLines.get ⟨lineIndex, h⟩)) then
      nextEditIdx bomLines (lineIndex + 1)
    else some lineIndex
  else none
termination_by bomLines.length - lineIndex

/-- How an interactive editing session ends: the cursor ran off the end of the
file, the user aborted, a malformed line raised, or the supplied entry stream
ran out with the editor still waiting at a line. -/
inductive SessionEnd where
  | completed (bomLines : List String)
  | aborted (bomLines : List String)
  | invalidLine (bomLines : List String)
  | needMoreInput (bomLines : List String) (lineIndex : Nat)
deriving DecidableEq, Repr

/-- The state of the BOM file when the session ends. -/
def sessionLines : SessionEnd → List String
  | SessionEnd.completed bomLines => bomLines
  | SessionEnd.aborted bomLines => bomLines
  | SessionEnd.invalidLine bomLines => bomLines
  | SessionEnd.needMoreInput bomLines _ => bomLines

/-- Embedding of the `_processBOMFile` editing loop over a stream of user
entries.  At the current editable line the entry is processed: the commands
move the cursor exactly as the Python dispatch does (`f` to 0, `l` to the last
line, `n` and `b` clamped steps), `a` aborts, and any other entry overwrites
the current line with the rewritten line and advances.  Each write is
persisted at once in the source; the line list models the file contents. -/
def runBOMEdit (bomLines : List String) (lineIndex : Nat) :
    List String → SessionEnd
  | [] =>
    match nextEditIdx bomLines lineIndex with
    | none => SessionEnd.completed bomLines
    | some j => SessionEnd.needMoreInput bomLines j
  | enteredText :: rest =>
    match nextEditIdx bomLines lineIndex with
    | none => SessionEnd.completed bomLines
    | some j =>
      match updateJLCPCBPart (pyRStrip ['\r', '\n'] (bomLines.getD j "")) enteredText with
      | EditResult.invalidLine => SessionEnd.invalidLine bomLines
      | EditResult.command cmd =>
        if cmd = "f" then runBOMEdit bomLines 0 rest
        else if cmd = "l" then runBOMEdit bomLines (bomLines.length - 1) rest
        else if cmd = "n" then
          runBOMEdit bomLines (if j < bomLines.length - 1 then j + 1 else j) rest
        else if cmd = "b" then
          runBOMEdit bomLines (if 0 < j then j - 1 else j) rest
        else SessionEnd.aborted bomLines
      | EditResult.newLine nl => runBOMEdit (bomLines.set j nl) (j + 1) rest

/-! ## Theorems about the stack sorter -/

theorem foldl_append_eq_flatMap {α β : Type} (g : α → List β) (L : List α) (init : List β) :
    L.foldl (fun acc a => acc ++ g a) init = init ++ L.flatMap g := by
  induction L generalizing init with
  | nil => simp
  | cons a t ih => simp [List.foldl_cons, ih, List.append_assoc]

/-- C1: when a vendor profile is inferred, the sorted output is exactly the
concatenation, over the profile's required suffixes in canonical order, of the
input paths ending with each suffix (each group in original relative order,
since `List.filter` preserves order), and every output path ends with some
suffix of the profile (paths matching none are omitted). -/
theorem getSortedFileList_sorts (fileList mfgFileList : List String)
    (h : inferMfgFileList fileList = some mfgFileList) :
    getSortedFileList fileList =
      Except.ok (mfgFileList.flatMap (fun suf => fileList.filter (fun p => pyEndsWith p suf))) ∧
    ∀ p ∈ mfgFileList.flatMap (fun suf => fileList.filter (fun p => pyEndsWith p suf)),
      ∃ suf ∈ mfgFileList, pyEndsWith p suf = true := by
  constructor
  · simp only [getSortedFileList, h]
    rw [foldl_append_eq_flatMap]
    simp
  · intro p hp
    rw [List.mem_flatMap] at hp
    obtain ⟨suf, hsuf, hpf⟩ := hp
    rw [List.mem_filter] at hpf
    exact ⟨suf, hsuf, hpf.2⟩

/-- Witness for C1: a shuffled complete JLCPCB-V6 file set is returned in
exactly the canonical order ending with the drill file. -/
theorem getSortedFileList_sorts_witness :
    getSortedFileList
      ["B_Mask.gbs", "F_Paste.gtp", "Edge_Cuts.gm1", "F_Cu.gtl", "B_Silkscreen.gbo",
       "B_Cu.gbl", "F_Silkscreen.gto", "B_Paste.gbp", "F_Mask.gts", "project.drl"] =
      Except.ok
      ["F_Cu.gtl", "B_Cu.gbl", "F_Paste.gtp", "B_Paste.gbp", "F_Silkscreen.gto",
       "B_Silkscreen.gbo", "F_Mask.gts", "B_Mask.gbs", "Edge_Cuts.gm1", "project.drl"] := by
  have h := (getSortedFileList_sorts
    ["B_Mask.gbs", "F_Paste.gtp", "Edge_Cuts.gm1", "F_Cu.gtl", "B_Silkscreen.gbo",
     "B_Cu.gbl", "F_Silkscreen.gto", "B_Paste.gbp", "F_Mask.gts", "project.drl"]
    JLCPCB_REQUIRED_FILES_V6 (by decide)).1
  exact h.trans (congrArg Except.ok (by decide))

/-- Fact relating the inference scan to the first-suffix predicate: inference
fails exactly on lists in which no path matches any profile's first suffix. -/
theorem inferMfgFileList_eq_none (fileList : List String)
    (h : ∀ f ∈ fileList, matchesAnyFirstSuffix f = false) :
    inferMfgFileList fileList = none := by
  induction fileList with
  | nil => rfl
  | cons f rest ih =>
    have hf := h f (List.mem_cons_self f rest)
    simp only [matchesAnyFirstSuffix, Bool.or_eq_false_iff] at hf
    simp only [inferMfgFileList, hf.1.1.1, hf.1.1.2, hf.1.2, hf.2, if_false, Bool.false_eq_true]
    exact ih (fun g hg => h g (List.mem_cons_of_mem f hg))

/-- C4: for every input list (including the empty list) in which no path ends
with any of the four profiles' first required suffixes, the stack sorter fails
with the `UnrecognizedFileSet` failure. -/
theorem getSortedFileList_unrecognized (fileList : List String)
    (h : ∀ f ∈ fileList, matchesAnyFirstSuffix f = false) :
    getSortedFileList fileList = Except.error SortFailure.UnrecognizedFileSet := by
  simp only [getSortedFileList, inferMfgFileList_eq_none fileList h]

/-- Witness for C4: the empty list and a list of unrecognized names both fail. -/
theorem getSortedFileList_unrecognized_witness :
    getSortedFileList [] = Except.error SortFailure.UnrecognizedFileSet ∧
    getSortedFileList ["README.md", "notes.txt"] =
      Except.error SortFailure.UnrecognizedFileSet :=
  ⟨getSortedFileList_unrecognized [] (by decide),
   getSortedFileList_unrecognized ["README.md", "notes.txt"] (by decide)⟩

/-! ## Theorems about the archive builder -/

theorem suffixIndep_pairwise {req : List String} (h : suffixIndep req = true) :
    req.Pairwise
      (fun a b => ¬ a.data <:+ b.data ∧ ¬ b.data <:+ a.data) := by
  induction req with
  | nil => exact List.Pairwise.nil
  | cons a t ih =>
    rw [suffixIndep, Bool.and_eq_true, List.all_eq_true] at h
    rw [List.pairwise_cons]
    refine ⟨fun b hb => ?_, ih h.2⟩
    have hb2 := h.1 b hb
    rw [Bool.and_eq_true, Bool.not_eq_eq_eq_not, Bool.not_eq_eq_eq_not] at hb2
    constructor
    · intro hs
      have := List.isSuffixOf_iff_suffix.mpr hs
      simp [hb2.1] at this
    · intro hs
      have := List.isSuffixOf_iff_suffix.mpr hs
      simp [hb2.2] at this

theorem pairwise_suffixIndep :
    ∀ {l : List String},
      l.Pairwise (fun a b => ¬ a.data <:+ b.data ∧ ¬ b.data <:+ a.data) →
      suffixIndep l = true := by
  intro l
  induction l with
  | nil => intro _; rfl
  | cons a t ih =>
    intro hp
    rw [List.pairwise_cons] at hp
    rw [suffixIndep, Bool.and_eq_true, List.all_eq_true]
    refine ⟨fun b hb => ?_, ih hp.2⟩
    have hab := hp.1 b hb
    rw [Bool.and_eq_true, Bool.not_eq_eq_eq_not, Bool.not_eq_eq_eq_not]
    simp only [Bool.not_true]
    constructor
    · rcases hc : a.data.isSuffixOf b.data with _ | _
      · rfl
      · exact absurd (List.isSuffixOf_iff_suffix.mp hc) hab.1
    · rcases hc : b.data.isSuffixOf a.data with _ | _
      · rfl
      · exact absurd (List.isSuffixOf_iff_suffix.mp hc) hab.2

theorem suffixIndep_nodup {req : List String} (h : suffixIndep req = true) : req.Nodup := by
  refine (suffixIndep_pairwise h).imp ?_
  intro a b hab
  intro he
  exact hab.1 (he ▸ List.suffix_refl a.data)

/-- Under suffix independence, any single file matches at most one required
suffix: two matched suffixes would both be suffixes of the file name, hence
comparable, contradicting independence. -/
theorem matched_filter_length_le_one {req : List String} (h : suffixIndep req = true)
    (currentF : String) :
    (req.filter (fun x => pyEndsWith currentF x)).length ≤ 1 := by
  rcases hfil : req.filter (fun x => pyEndsWith currentF x) with _ | ⟨x, _ | ⟨y, t⟩⟩
  · simp
  · simp
  · exfalso
    have hp := (suffixIndep_pairwise h).filter (fun x => pyEndsWith currentF x)
    rw [hfil, List.pairwise_cons] at hp
    have hxy := hp.1 y (List.mem_cons_self y t)
    have hx : pyEndsWith currentF x = true := by
      have : x ∈ req.filter (fun x => pyEndsWith currentF x) := by
        rw [hfil]; exact List.mem_cons_self x (y :: t)
      exact (List.mem_filter.mp this).2
    have hy : pyEndsWith currentF y = true := by
      have : y ∈ req.filter (fun x => pyEndsWith currentF x) := by
        rw [hfil]
        exact List.mem_cons_of_mem x (List.mem_cons_self y t)
      exact (List.mem_filter.mp this).2
    rw [pyEndsWith, List.isSuffixOf_iff_suffix] at hx hy
    rcases List.suffix_or_suffix_of_suffix hx hy with hc | hc
    · exact hxy.1 hc
    · exact hxy.2 hc

/-- The Python remove-while-iterating scan, started at iterator position `k`
with all earlier positions unmatched, removes exactly the matched suffixes,
provided the current file can match at most one entry. -/
theorem removeMatchedScan_eq_filter (currentF : String) :
    ∀ (n : Nat) (req : List String) (k : Nat), req.length - k ≤ n →
    req.Nodup →
    (req.filter (fun x => pyEndsWith currentF x)).length ≤ 1 →
    (∀ x ∈ req.take k, pyEndsWith currentF x = false) →
    removeMatchedScan currentF req k = req.filter (fun x => !(pyEndsWith currentF x)) := by
  intro n
  induction n with
  | zero =>
    intro req k hm hnd h1 h2
    have hk : req.length ≤ k := by omega
    rw [removeMatchedScan, dif_neg (by omega)]
    rw [List.take_of_length_le hk] at h2
    rw [List.filter_eq_self.mpr]
    intro a ha
    rw [Bool.not_eq_true', h2 a ha]
  | succ n ih =>
    intro req k hm hnd h1 h2
    by_cases hk : k < req.length
    · rw [removeMatchedScan, dif_pos hk]
      simp only []
      by_cases hmatch : pyEndsWith currentF (req.get ⟨k, hk⟩) = true
      · rw [if_pos hmatch]
        set x := req.get ⟨k, hk⟩ with hxdef
        have hxmem : x ∈ req := List.get_mem req k hk
        have hfil : req.filter (fun z => pyEndsWith currentF z) = [x] := by
          have hxf : x ∈ req.filter (fun z => pyEndsWith currentF z) :=
            List.mem_filter.mpr ⟨hxmem, hmatch⟩
          rcases hf : req.filter (fun z => pyEndsWith currentF z) with _ | ⟨y, u⟩
          · rw [hf] at hxf; exact absurd hxf (List.not_mem_nil x)
          · rw [hf] at h1 hxf
            have hu : u = [] := by
              cases u with
              | nil => rfl
              | cons z v => simp at h1
            subst hu
            rw [List.mem_singleton] at hxf
            rw [hxf]
        have honly : ∀ z ∈ req, pyEndsWith currentF z = true → z = x := by
          intro z hz hzm
          have : z ∈ req.filter (fun z => pyEndsWith currentF z) :=
            List.mem_filter.mpr ⟨hz, hzm⟩
          rw [hfil, List.mem_singleton] at this
          exact this
        have herase : req.erase x = req.filter (fun z => !(pyEndsWith currentF z)) := by
          rw [hnd.erase_eq_filter]
          refine List.filter_congr ?_
          intro z hz
          by_cases hzx : z = x
          · subst hzx
            simp [hmatch]
          · have : pyEndsWith currentF z = false := by
              rcases hb : pyEndsWith currentF z with _ | _
              · rfl
              · exact absurd (honly z hz hb) hzx
            simp [this, hzx]
        have hnone : ∀ z ∈ req.erase x, pyEndsWith currentF z = false := by
          intro z hz
          rw [hnd.mem_erase_iff] at hz
          rcases hb : pyEndsWith currentF z with _ | _
          · rfl
          · exact absurd (honly z hz.2 hb) hz.1
        have hlenx : (req.erase x).length = req.length - 1 :=
          List.length_erase_of_mem hxmem
        rw [ih (req.erase x) (k + 1) (by omega) (hnd.erase x)
          (by
            rw [List.filter_eq_nil_iff.mpr (fun a ha hpa => by rw [hnone a ha] at hpa; exact absurd hpa (by simp))]
            simp)
          (fun z hz => hnone z (List.mem_of_mem_take hz))]
        rw [List.filter_eq_self.mpr (fun a ha => by rw [Bool.not_eq_true', hnone a ha])]
        exact herase
      · rw [if_neg hmatch]
        refine ih req (k + 1) (by omega) hnd h1 ?_
        intro z hz
        rw [List.take_succ] at hz
        rcases List.mem_append.mp hz with hz | hz
        · exact h2 z hz
        · have hget : req[k]? = some (req.get ⟨k, hk⟩) := by
            rw [List.getElem?_eq_getElem hk]
            rfl
          rw [hget] at hz
          simp only [Option.toList_some, List.mem_singleton] at hz
          subst hz
          rcases hb : pyEndsWith currentF (req.get ⟨k, hk⟩) with _ | _
          · rfl
          · exact absurd hb hmatch
    · rw [removeMatchedScan, dif_neg hk]
      rw [List.take_of_length_le (by omega)] at h2
      rw [List.filter_eq_self.mpr]
      intro a ha
      rw [Bool.not_eq_true', h2 a ha]

/-- The full scan over every filtered file leaves exactly the required suffixes
matched by none of them. -/
theorem removeSatisfiedSuffixes_eq_filter (gerberFileList : List String) :
    ∀ (requiredFiles : List String), suffixIndep requiredFiles = true →
    removeSatisfiedSuffixes gerberFileList requiredFiles =
      requiredFiles.filter
        (fun reqF => gerberFileList.all (fun f => !(pyEndsWith f reqF))) := by
  induction gerberFileList with
  | nil =>
    intro req hind
    simp [removeSatisfiedSuffixes, List.filter_true]
  | cons f fs ih =>
    intro req hind
    have hstep : removeMatchedScan f req 0 = req.filter (fun x => !(pyEndsWith f x)) :=
      removeMatchedScan_eq_filter f req.length req 0 (by omega) (suffixIndep_nodup hind)
        (matched_filter_length_le_one hind f) (by simp)
    have hindf : suffixIndep (req.filter (fun x => !(pyEndsWith f x))) = true :=
      pairwise_suffixIndep ((suffixIndep_pairwise hind).filter (fun x => !(pyEndsWith f x)))
    calc removeSatisfiedSuffixes (f :: fs) req
        = removeSatisfiedSuffixes fs (removeMatchedScan f req 0) := rfl
      _ = removeSatisfiedSuffixes fs (req.filter (fun x => !(pyEndsWith f x))) := by
            rw [hstep]
      _ = (req.filter (fun x => !(pyEndsWith f x))).filter
            (fun reqF => fs.all (fun g => !(pyEndsWith g reqF))) := ih _ hindf
      _ = req.filter (fun reqF => (f :: fs).all (fun g => !(pyEndsWith g reqF))) := by
            rw [List.filter_filter]
            refine List.filter_congr ?_
            intro x _
            rw [List.all_cons, Bool.and_comm]

/-- C2: if some required suffix of the chosen vendor has no filtered file
ending with it, the build fails with `MissingRequiredFiles` carrying the full
original required list and exactly the set of still-unsatisfied suffixes, and
the only filesystem effect is the output-folder creation: no archive is
written. -/
theorem zipFiles_missing_required (requiredFiles : List String)
    (mfg projectName projectVersion : String) (cwdFiles : List String)
    (hind : suffixIndep requiredFiles = true)
    (hname : 0 < projectName.length) (hver : 0 < projectVersion.length)
    (hmiss : ∃ reqF ∈ requiredFiles, ∀ f ∈ cwdFiles.filter isGerberFile,
      pyEndsWith f reqF = false) :
    zipFiles requiredFiles mfg projectName projectVersion cwdFiles =
      { effects := [FsEffect.ensureDir (outputFolderName projectName projectVersion)],
        outcome := BuildOutcome.failed (BuildError.MissingRequiredFiles requiredFiles
          (requiredFiles.filter
            (fun reqF => (cwdFiles.filter isGerberFile).all (fun f => !(pyEndsWith f reqF))))) } := by
  obtain ⟨reqF0, hreq0, hnof⟩ := hmiss
  have hchar := removeSatisfiedSuffixes_eq_filter (cwdFiles.filter isGerberFile)
    requiredFiles hind
  have hmem : reqF0 ∈ requiredFiles.filter
      (fun reqF => (cwdFiles.filter isGerberFile).all (fun f => !(pyEndsWith f reqF))) := by
    refine List.mem_filter.mpr ⟨hreq0, ?_⟩
    rw [List.all_eq_true]
    intro f hf
    rw [Bool.not_eq_true', hnof f hf]
  have hpos : 0 < (removeSatisfiedSuffixes (cwdFiles.filter isGerberFile) requiredFiles).length := by
    rw [hchar]
    exact List.length_pos.mpr (List.ne_nil_of_mem hmem)
  unfold zipFiles
  rw [if_pos ⟨hname, hver⟩]
  simp only []
  rw [if_pos hpos, hchar]

/-- Witness for C2: a JLCPCB-V6 build in a directory holding only the top
copper file fails, reporting the other nine suffixes as missing; no archive
effect is produced. -/
theorem zipFiles_missing_required_witness :
    zipFiles JLCPCB_REQUIRED_FILES_V6 "jlcpcb" "proj" "1" ["proj-F_Cu.gtl"] =
      { effects := [FsEffect.ensureDir "./proj_1_pcb_files"],
        outcome := BuildOutcome.failed (BuildError.MissingRequiredFiles JLCPCB_REQUIRED_FILES_V6
          ["B_Cu.gbl", "F_Paste.gtp", "B_Paste.gbp", "F_Silkscreen.gto", "B_Silkscreen.gbo",
           "F_Mask.gts", "B_Mask.gbs", "Edge_Cuts.gm1", ".drl"]) } := by
  have h := zipFiles_missing_required JLCPCB_REQUIRED_FILES_V6 "jlcpcb" "proj" "1"
    ["proj-F_Cu.gtl"] (by decide) (by decide) (by decide)
    ⟨".drl", by decide, by decide⟩
  exact h.trans (by decide)

/-- C3: when every required suffix of the chosen vendor is satisfied by some
filtered file and the project name and version are non-empty, the build writes
an archive named projectName_vversion_vendor.zip inside the output folder whose
entries are exactly the filtered files (extras included), each under its bare
file name, and returns that archive path. -/
theorem zipFiles_success (requiredFiles : List String)
    (mfg projectName projectVersion : String) (cwdFiles : List String)
    (hind : suffixIndep requiredFiles = true)
    (hname : 0 < projectName.length) (hver : 0 < projectVersion.length)
    (hall : ∀ reqF ∈ requiredFiles, ∃ f ∈ cwdFiles.filter isGerberFile,
      pyEndsWith f reqF = true) :
    zipFiles requiredFiles mfg projectName projectVersion cwdFiles =
      { effects := [FsEffect.ensureDir (outputFolderName projectName projectVersion),
          FsEffect.writeArchive
            (outputFolderName projectName projectVersion ++ "/" ++
              (projectName ++ "_v" ++ projectVersion ++ "_" ++ mfg ++ ".zip"))
            (cwdFiles.filter isGerberFile)],
        outcome := BuildOutcome.archived
          (outputFolderName projectName projectVersion ++ "/" ++
            (projectName ++ "_v" ++ projectVersion ++ "_" ++ mfg ++ ".zip")) } := by
  have hchar := removeSatisfiedSuffixes_eq_filter (cwdFiles.filter isGerberFile)
    requiredFiles hind
  have hnil : removeSatisfiedSuffixes (cwdFiles.filter isGerberFile) requiredFiles = [] := by
    rw [hchar]
    rw [List.filter_eq_nil_iff]
    intro reqF hreq hcon
    rw [List.all_eq_true] at hcon
    obtain ⟨f, hf, hmatch⟩ := hall reqF hreq
    have := hcon f hf
    rw [hmatch] at this
    exact absurd this (by simp)
  unfold zipFiles
  rw [if_pos ⟨hname, hver⟩]
  simp only []
  rw [if_neg (by rw [hnil]; simp)]

/-- Witness for C3: a complete JLCPCB-V6 set plus an extra allowlisted gerber
and an unrelated text file; the archive holds exactly the eleven filtered
files (the text file is excluded, the extra gerber included). -/
theorem zipFiles_success_witness :
    zipFiles JLCPCB_REQUIRED_FILES_V6 "jlcpcb" "proj" "1"
      ["proj-F_Cu.gtl", "proj-B_Cu.gbl", "proj-F_Paste.gtp", "proj-B_Paste.gbp",
       "proj-F_Silkscreen.gto", "proj-B_Silkscreen.gbo", "proj-F_Mask.gts",
       "proj-B_Mask.gbs", "proj-Edge_Cuts.gm1", "proj.drl", "extra.gbr", "notes.txt"] =
      { effects := [FsEffect.ensureDir "./proj_1_pcb_files",
          FsEffect.writeArchive "./proj_1_pcb_files/proj_v1_jlcpcb.zip"
            ["proj-F_Cu.gtl", "proj-B_Cu.gbl", "proj-F_Paste.gtp", "proj-B_Paste.gbp",
             "proj-F_Silkscreen.gto", "proj-B_Silkscreen.gbo", "proj-F_Mask.gts",
             "proj-B_Mask.gbs", "proj-Edge_Cuts.gm1", "proj.drl", "extra.gbr"]],
        outcome := BuildOutcome.archived "./proj_1_pcb_files/proj_v1_jlcpcb.zip" } := by
  have h := zipFiles_success JLCPCB_REQUIRED_FILES_V6 "jlcpcb" "proj" "1"
    ["proj-F_Cu.gtl", "proj-B_Cu.gbl", "proj-F_Paste.gtp", "proj-B_Paste.gbp",
     "proj-F_Silkscreen.gto", "proj-B_Silkscreen.gbo", "proj-F_Mask.gts",
     "proj-B_Mask.gbs", "proj-Edge_Cuts.gm1", "proj.drl", "extra.gbr", "notes.txt"]
    (by decide) (by decide) (by decide) (by decide)
  exact h.trans (by decide)

/-- C8: with an empty project name or an empty version, `zipFiles` falls
through the length guard: no archive is written, no error is raised, and the
run ends as a no-op returning nothing. -/
theorem zipFiles_empty_input_noop (requiredFiles : List String)
    (mfg projectName projectVersion : String) (cwdFiles : List String)
    (h : projectName = "" ∨ projectVersion = "") :
    zipFiles requiredFiles mfg projectName projectVersion cwdFiles =
      { effects := [FsEffect.ensureDir (outputFolderName projectName projectVersion)],
        outcome := BuildOutcome.noArchive } := by
  have hneg : ¬(0 < projectName.length ∧ 0 < projectVersion.length) := by
    rcases h with h | h <;> subst h <;>
      · intro hc
        rw [String.length_empty] at hc
        omega
  unfold zipFiles
  rw [if_neg hneg]

/-- Witness for C8: an empty version with a non-empty project name is a no-op
even though a buildable gerber set is present. -/
theorem zipFiles_empty_input_noop_witness :
    zipFiles JLCPCB_REQUIRED_FILES_V6 "jlcpcb" "proj" "" ["proj-F_Cu.gtl"] =
      { effects := [FsEffect.ensureDir "./proj__pcb_files"],
        outcome := BuildOutcome.noArchive } := by
  have h := zipFiles_empty_input_noop JLCPCB_REQUIRED_FILES_V6 "jlcpcb" "proj" ""
    ["proj-F_Cu.gtl"] (Or.inr rfl)
  exact h.trans (by decide)

/-- C10: `_makeOutputFolder` runs before the name/version validation, so on
every run, whatever the outcome, the first filesystem effect ensures the
output folder exists; with both inputs empty the folder is still created and
it is named exactly ./__pcb_files. -/
theorem zipFiles_folder_created_first (requiredFiles : List String)
    (mfg projectName projectVersion : String) (cwdFiles : List String) :
    (zipFiles requiredFiles mfg projectName projectVersion cwdFiles).effects.head? =
      some (FsEffect.ensureDir (outputFolderName projectName projectVersion)) ∧
    (projectName = "" → projectVersion = "" →
      zipFiles requiredFiles mfg projectName projectVersion cwdFiles =
        { effects := [FsEffect.ensureDir "./__pcb_files"],
          outcome := BuildOutcome.noArchive }) := by
  constructor
  · unfold zipFiles
    split
    · simp only []
      split <;> rfl
    · rfl
  · intro h1 h2
    subst h1
    subst h2
    have hneg : ¬(0 < ("" : String).length ∧ 0 < ("" : String).length) := by
      intro hc
      rw [String.length_empty] at hc
      omega
    unfold zipFiles
    rw [if_neg hneg]
    have : outputFolderName "" "" = "./__pcb_files" := by decide
    rw [this]

/-- Witness for C10: with both inputs empty the run creates ./__pcb_files and
produces nothing else. -/
theorem zipFiles_folder_created_first_witness :
    zipFiles JLCPCB_REQUIRED_FILES_V6 "jlcpcb" "" "" ["x.gbr"] =
      { effects := [FsEffect.ensureDir "./__pcb_files"],
        outcome := BuildOutcome.noArchive } :=
  (zipFiles_folder_created_first JLCPCB_REQUIRED_FILES_V6 "jlcpcb" "" "" ["x.gbr"]).2 rfl rfl

/-! ## Theorems about the BOM reconciler -/

theorem getLast?_cons_or {α : Type} : ∀ (l : List α) (a : α),
    (a :: l).getLast? = (l.getLast?).or (some a)
  | [], a => rfl
  | b :: t, a => by
    rw [List.getLast?_cons_cons, getLast?_cons_or t b, Option.or_assoc]
    rfl

theorem foldl_last_match {α : Type} (p : α → Bool) :
    ∀ (L : List α) (init : Option α),
    L.foldl (fun matched l => if p l then some l else matched) init =
      ((L.filter p).getLast?).or init := by
  intro L
  induction L with
  | nil => intro init; simp
  | cons a t ih =>
    intro init
    rw [List.foldl_cons, ih]
    by_cases hp : p a = true
    · rw [List.filter_cons_of_pos hp, if_pos hp, getLast?_cons_or, Option.or_assoc]
      rfl
    · rw [List.filter_cons_of_neg (by simp [hp]), if_neg (by simp [hp])]

/-- C6: `_getExistingBOMLine` returns the last existing line whose first three
fields equal the candidate's case-insensitively; it returns a line iff some
existing line matches, and `none` exactly when none matches. -/
theorem getExistingBOMLine_last_match (kicadBOMFileLine : String)
    (existingBOMLines : List String)
    (hc : 3 ≤ (bomFields kicadBOMFileLine).length)
    (he : ∀ l ∈ existingBOMLines, 3 ≤ (bomFields l).length) :
    getExistingBOMLine kicadBOMFileLine existingBOMLines =
      (existingBOMLines.filter (fun l => bomLineMatch kicadBOMFileLine l)).getLast? ∧
    ((getExistingBOMLine kicadBOMFileLine existingBOMLines).isSome ↔
      ∃ l ∈ existingBOMLines, bomLineMatch kicadBOMFileLine l = true) ∧
    (getExistingBOMLine kicadBOMFileLine existingBOMLines = none ↔
      ∀ l ∈ existingBOMLines, bomLineMatch kicadBOMFileLine l = false) := by
  have hmain : getExistingBOMLine kicadBOMFileLine existingBOMLines =
      (existingBOMLines.filter (fun l => bomLineMatch kicadBOMFileLine l)).getLast? := by
    rw [getExistingBOMLine, foldl_last_match, Option.or_none]
  refine ⟨hmain, ?_, ?_⟩
  · rw [hmain, List.getLast?_isSome]
    constructor
    · intro hne
      obtain ⟨l, hl⟩ := List.exists_mem_of_ne_nil _ hne
      have := List.mem_filter.mp hl
      exact ⟨l, this.1, this.2⟩
    · intro ⟨l, hl, hm⟩
      exact List.ne_nil_of_mem (List.mem_filter.mpr ⟨hl, hm⟩)
  · rw [hmain, List.getLast?_eq_none_iff, List.filter_eq_nil_iff]
    constructor
    · intro h l hl
      have := h l hl
      rcases hb : bomLineMatch kicadBOMFileLine l with _ | _
      · rfl
      · exact absurd hb this
    · intro h l hl hb
      rw [h l hl] at hb
      exact absurd hb (by simp)

/-- Witness for C6: the fresh line matches two annotated lines (the second one
only up to letter case); the later of the two is returned. -/
theorem getExistingBOMLine_last_match_witness :
    getExistingBOMLine "\"10k\",\"R1\",\"0402\",\"\""
      ["\"10k\",\"R1\",\"0402\",\"C111\"", "\"1nF\",\"C7\",\"0402\",\"C9\"",
       "\"10K\",\"r1\",\"0402\",\"C222\""] = some "\"10K\",\"r1\",\"0402\",\"C222\"" := by
  have h := (getExistingBOMLine_last_match "\"10k\",\"R1\",\"0402\",\"\""
    ["\"10k\",\"R1\",\"0402\",\"C111\"", "\"1nF\",\"C7\",\"0402\",\"C9\"",
     "\"10K\",\"r1\",\"0402\",\"C222\""] (by decide) (by decide)).1
  exact h.trans (by decide)

theorem foldl_append_one_eq_map {α β : Type} (g : α → β) :
    ∀ (L : List α) (init : List β),
    L.foldl (fun acc a => acc ++ [g a]) init = init ++ L.map g := by
  intro L
  induction L with
  | nil => intro init; simp
  | cons a t ih => intro init; simp [List.foldl_cons, ih]

/-- C5: the merged BOM has exactly one line per fresh line, in the fresh
export's order; each fresh line is replaced by its matched annotated line when
a match exists and kept unchanged otherwise.  The closing conjunct shows the
claim's concrete case: a previously entered part number C12345 is preserved. -/
theorem mergeBOMLines_spec :
    (∀ (kicadBOMFileLines bomOutputFileLines : List String),
      mergeBOMLines kicadBOMFileLines bomOutputFileLines =
        kicadBOMFileLines.map (fun kicadLine =>
          (getExistingBOMLine kicadLine bomOutputFileLines).getD kicadLine) ∧
      (mergeBOMLines kicadBOMFileLines bomOutputFileLines).length =
        kicadBOMFileLines.length) ∧
    mergeBOMLines ["\"10k\",\"R1\",\"0402\",\"\""] ["\"10k\",\"R1\",\"0402\",\"C12345\""] =
      ["\"10k\",\"R1\",\"0402\",\"C12345\""] ∧
    mergeBOMLines ["\"33pF\",\"C9\",\"0603\",\"\""] ["\"10k\",\"R1\",\"0402\",\"C12345\""] =
      ["\"33pF\",\"C9\",\"0603\",\"\""] := by
  refine ⟨?_, by decide, by decide⟩
  intro kicadBOMFileLines bomOutputFileLines
  have hmap : mergeBOMLines kicadBOMFileLines bomOutputFileLines =
      kicadBOMFileLines.map (fun kicadLine =>
        (getExistingBOMLine kicadLine bomOutputFileLines).getD kicadLine) := by
    have h := foldl_append_one_eq_map
      (fun kicadLine => (getExistingBOMLine kicadLine bomOutputFileLines).getD kicadLine)
      kicadBOMFileLines []
    rw [List.nil_append] at h
    have hfun : (fun (outputFileLines : List String) (kicadBOMFileLine : String) =>
        let newLine := match getExistingBOMLine kicadBOMFileLine bomOutputFileLines with
          | none => kicadBOMFileLine
          | some existing => existing
        outputFileLines ++ [newLine]) =
        (fun (acc : List String) (kicadLine : String) =>
          acc ++ [(getExistingBOMLine kicadLine bomOutputFileLines).getD kicadLine]) := by
      funext acc kicadLine
      cases getExistingBOMLine kicadLine bomOutputFileLines <;> rfl
    unfold mergeBOMLines
    rw [hfun]
    exact h
  exact ⟨hmap, by rw [hmap, List.length_map]⟩

/-! ## Theorems about the placement rewrite -/

/-- Counterexample to C7 as stated: on the input below the code replaces both
lines, because the rewrite loop substitutes every line that merely starts with
the source header, whereas the claim predicts that only the first exactly
matching line is replaced and the second line (source header plus trailing
text, hence not an exact match) passes through unchanged. -/
theorem processPlacementLines_ne_claim :
    processPlacementLines
      ["Ref,Val,Package,PosX,PosY,Rot,Side", "Ref,Val,Package,PosX,PosY,Rot,Side junk"] =
      PlacementResult.ok [PLACEMENT_TARGET_HEADER, PLACEMENT_TARGET_HEADER] ∧
    rewritePlacementHeaderClaim
      ["Ref,Val,Package,PosX,PosY,Rot,Side", "Ref,Val,Package,PosX,PosY,Rot,Side junk"] =
      PlacementResult.ok
        [PLACEMENT_TARGET_HEADER, "Ref,Val,Package,PosX,PosY,Rot,Side junk"] ∧
    processPlacementLines
      ["Ref,Val,Package,PosX,PosY,Rot,Side", "Ref,Val,Package,PosX,PosY,Rot,Side junk"] ≠
    rewritePlacementHeaderClaim
      ["Ref,Val,Package,PosX,PosY,Rot,Side", "Ref,Val,Package,PosX,PosY,Rot,Side junk"] :=
  ⟨by decide, by decide, by decide⟩

theorem placement_scan_characterization (lines : List String) :
    ∀ (acc : List String) (b : Bool),
    lines.foldl
      (fun (acc : List String × Bool) line =>
        if pyStartsWith line PLACEMENT_SOURCE_HEADER then
          (acc.1 ++ [PLACEMENT_TARGET_HEADER], true)
        else (acc.1 ++ [line], acc.2))
      (acc, b) =
      (acc ++ lines.map (fun line =>
          if pyStartsWith line PLACEMENT_SOURCE_HEADER then PLACEMENT_TARGET_HEADER else line),
       b || lines.any (fun line => pyStartsWith line PLACEMENT_SOURCE_HEADER)) := by
  induction lines with
  | nil => intro acc b; simp
  | cons l t ih =>
    intro acc b
    rw [List.foldl_cons]
    by_cases hp : pyStartsWith l PLACEMENT_SOURCE_HEADER = true
    · rw [if_pos hp]
      rw [ih]
      rw [List.map_cons, if_pos hp, List.any_cons]
      rw [hp]
      simp [List.append_assoc]
    · rw [if_neg hp]
      rw [ih]
      rw [List.map_cons, if_neg hp, List.any_cons]
      have hp' : pyStartsWith l PLACEMENT_SOURCE_HEADER = false := by
        rcases hb : pyStartsWith l PLACEMENT_SOURCE_HEADER with _ | _
        · rfl
        · exact absurd hb hp
      rw [hp']
      simp [List.append_assoc]

/-- C7 amended: the placement rewrite replaces every line that starts with the
source header `Ref,Val,Package,PosX,PosY,Rot,Side` by the target header
`Designator,Val,Package,Mid X,Mid Y,Rotation,Layer`, passes every other line
through unchanged, and fails with `HeaderNotFound` exactly when no line starts
with the source header. -/
theorem processPlacementLines_spec (lines : List String) :
    processPlacementLines lines =
      if lines.any (fun line => pyStartsWith line PLACEMENT_SOURCE_HEADER) then
        PlacementResult.ok (lines.map (fun line =>
          if pyStartsWith line PLACEMENT_SOURCE_HEADER then PLACEMENT_TARGET_HEADER else line))
      else PlacementResult.headerNotFound := by
  unfold processPlacementLines
  rw [placement_scan_characterization lines [] false]
  simp only [List.nil_append, Bool.false_or]

/-! ## Theorems about the interactive BOM annotation -/

theorem updateJLCPCBPart_newLine_shape (line enteredText nl : String)
    (h : updateJLCPCBPart line enteredText = EditResult.newLine nl) :
    ∃ comment designator footPrint,
      nl = mkBomLine comment designator footPrint (pyStrip ['\r', '\n', '"'] enteredText) ∧
      pyStrip ['\r', '\n', '"'] enteredText ∉ BOM_EDIT_COMMANDS := by
  unfold updateJLCPCBPart at h
  simp only [] at h
  by_cases h4 : (if (bomQuotedFields line).length = 3 then bomQuotedFields line ++ [""]
      else bomQuotedFields line).length = 4
  · rw [if_pos h4] at h
    by_cases hcmd : pyStrip ['\r', '\n', '"'] enteredText ∈ BOM_EDIT_COMMANDS
    · rw [if_pos hcmd] at h
      exact absurd h (by simp)
    · rw [if_neg hcmd] at h
      injection h with hh
      exact ⟨_, _, _, hh.symm, hcmd⟩
  · rw [if_neg h4] at h
    exact absurd h (by simp)

/-- C9: an entry whose entire value is one of the five one-letter command
strings is returned as a command (or the malformed-line exception fires first)
and is never written into a line; consequently every line reachable through
the editing session either was already in the file or is a rewritten
four-field line whose part number is not one of the five command strings. -/
theorem bomEditor_commands_never_written :
    (∀ (line enteredText : String), enteredText ∈ BOM_EDIT_COMMANDS →
      updateJLCPCBPart line enteredText = EditResult.command enteredText ∨
      updateJLCPCBPart line enteredText = EditResult.invalidLine) ∧
    (∀ (inputs bomLines : List String) (lineIndex : Nat),
      ∀ l ∈ sessionLines (runBOMEdit bomLines lineIndex inputs),
        l ∈ bomLines ∨
        ∃ comment designator footPrint partNumber,
          l = mkBomLine comment designator footPrint partNumber ∧
          partNumber ∉ BOM_EDIT_COMMANDS) := by
  constructor
  · intro line enteredText hmem
    have hstrip : pyStrip ['\r', '\n', '"'] enteredText = enteredText := by
      simp only [BOM_EDIT_COMMANDS, List.mem_cons, List.not_mem_nil, or_false] at hmem
      rcases hmem with rfl | rfl | rfl | rfl | rfl <;> decide
    unfold updateJLCPCBPart
    simp only []
    rw [hstrip]
    by_cases h4 : (if (bomQuotedFields line).length = 3 then bomQuotedFields line ++ [""]
        else bomQuotedFields line).length = 4
    · rw [if_pos h4, if_pos hmem]
      exact Or.inl rfl
    · rw [if_neg h4]
      exact Or.inr rfl
  · intro inputs
    induction inputs with
    | nil =>
      intro bomLines lineIndex l hl
      unfold runBOMEdit at hl
      rcases hni : nextEditIdx bomLines lineIndex with _ | j <;> simp only [hni] at hl <;>
        exact Or.inl hl
    | cons enteredText rest ih =>
      intro bomLines lineIndex l hl
      unfold runBOMEdit at hl
      rcases hni : nextEditIdx bomLines lineIndex with _ | j
      · simp only [hni] at hl
        exact Or.inl hl
      · simp only [hni] at hl
        rcases hup : updateJLCPCBPart (pyRStrip ['\r', '\n'] (bomLines.getD j ""))
            enteredText with cmd | nl | _
        · simp only [hup] at hl
          have hl2 : l ∈ sessionLines
              (if cmd = "f" then runBOMEdit bomLines 0 rest
               else if cmd = "l" then runBOMEdit bomLines (bomLines.length - 1) rest
               else if cmd = "n" then
                 runBOMEdit bomLines (if j < bomLines.length - 1 then j + 1 else j) rest
               else if cmd = "b" then
                 runBOMEdit bomLines (if 0 < j then j - 1 else j) rest
               else SessionEnd.aborted bomLines) := hl
          by_cases hf : cmd = "f"
          · rw [if_pos hf] at hl2
            exact ih bomLines 0 l hl2
          · rw [if_neg hf] at hl2
            by_cases hlc : cmd = "l"
            · rw [if_pos hlc] at hl2
              exact ih bomLines (bomLines.length - 1) l hl2
            · rw [if_neg hlc] at hl2
              by_cases hn : cmd = "n"
              · rw [if_pos hn] at hl2
                exact ih bomLines (if j < bomLines.length - 1 then j + 1 else j) l hl2
              · rw [if_neg hn] at hl2
                by_cases hb : cmd = "b"
                · rw [if_pos hb] at hl2
                  exact ih bomLines (if 0 < j then j - 1 else j) l hl2
                · rw [if_neg hb] at hl2
                  exact Or.inl hl2
        · simp only [hup] at hl
          have hres := ih (bomLines.set j nl) (j + 1) l hl
          rcases hres with hmem | hform
          · rcases List.mem_or_eq_of_mem_set hmem with hmem2 | heq
            · exact Or.inl hmem2
            · subst heq
              obtain ⟨c, d, f, hshape, hnotin⟩ := updateJLCPCBPart_newLine_shape _ _ _ hup
              exact Or.inr ⟨c, d, f, _, hshape, hnotin⟩
          · exact Or.inr hform
        · simp only [hup] at hl
          exact Or.inl hl

/-- Witness for C9: the entry n on a well-formed line is read as the
move-to-next command, and a session writing the entry C12345 yields only lines
that were present before or rewritten lines with a non-command part number. -/
theorem bomEditor_commands_never_written_witness :
    (updateJLCPCBPart "\"10k\",\"R1\",\"0402\",\"\"" "n" = EditResult.command "n" ∨
     updateJLCPCBPart "\"10k\",\"R1\",\"0402\",\"\"" "n" = EditResult.invalidLine) ∧
    (∀ l ∈ sessionLines (runBOMEdit ["\"10k\",\"R1\",\"0402\",\"\""] 0 ["C12345"]),
      l ∈ ["\"10k\",\"R1\",\"0402\",\"\""] ∨
      ∃ comment designator footPrint partNumber,
        l = mkBomLine comment designator footPrint partNumber ∧
        partNumber ∉ BOM_EDIT_COMMANDS) :=
  ⟨bomEditor_commands_never_written.1 "\"10k\",\"R1\",\"0402\",\"\"" "n" (by decide),
   bomEditor_commands_never_written.2 ["C12345"] ["\"10k\",\"R1\",\"0402\",\"\""] 0⟩
